import Mathlib

/-!
Verification development for the monthly invoice reconciliation engine.

The definitions below are shallow embeddings of the Python sources:
  calc/billing.py, calc/nick_calc.py, readers/master_reader.py,
  readers/nick_reader.py, utils/helpers.py, utils/name_match.py.

Machine integers are modelled as `Int` (Python integers are unbounded),
optional/absent values as `Option`, Python dictionaries as association
lists with insert-updates-in-place-else-append semantics, and exceptions
as `Option`-valued results.
-/

namespace Invoice

/-- Models `_val` in calc/billing.py: `v if v is not None else 0`. -/
def val0 (v : Option Int) : Int := v.getD 0

/-- Whitespace characters stripped by Python `str.strip()` and matched by
the regex class over whitespace on the inputs this system handles:
ASCII whitespace plus the ideographic space U+3000. -/
def isSpaceChar (c : Char) : Bool :=
  c = ' ' || c = '\t' || c = '\n' || c = '\r' || c = '\x0b' || c = '\x0c' || c = '　'

/-- Python `str.strip()` on a character list. -/
def stripChars (l : List Char) : List Char :=
  ((l.dropWhile isSpaceChar).reverse.dropWhile isSpaceChar).reverse

/-- Value of a run of decimal digit characters, as `int()` reads it. -/
def digitsToNat (l : List Char) : Nat :=
  l.foldl (fun acc c => acc * 10 + (c.toNat - 48)) 0

/-- Models the regex match over a digit run, optional whitespace and a
circle glyph at the start of the notes field
(master_reader.py, `RxRow.welfare_limit`): on success the digit value
times 10000. Digits are modelled as ASCII digits. -/
def circleCap (l : List Char) : Option Int :=
  let ds := l.takeWhile (fun c => c.isDigit)
  if ds.isEmpty then none
  else
    match (l.drop ds.length).dropWhile isSpaceChar with
    | c :: _ => if c = '○' || c = '〇' then some ((digitsToNat ds : Int) * 10000) else none
    | [] => none

/-- Leftmost maximal digit run of a string, as the regex search for one
or more digits finds it (master_reader.py, `RxRow.welfare_limit`). -/
def firstDigitRun : List Char → Option (List Char)
  | [] => none
  | c :: rest =>
    if c.isDigit then some (c :: rest.takeWhile (fun d => d.isDigit))
    else firstDigitRun rest

/-- Models the `RxRow.welfare_limit` property of readers/master_reader.py:
derive the welfare cap from the notes field. The part before the first
plus sign, stripped, is tried against the digits-circle pattern first;
otherwise the first digit run of the comma-stripped notes is read
literally when it is at least 10000. -/
def welfare_limit_of_notes (notes : Option String) : Option Int :=
  match notes with
  | none => none
  | some s =>
    if s = "" then none
    else
      let notes_str := stripChars s.data
      let base := stripChars (notes_str.takeWhile (fun c => c ≠ '+'))
      match circleCap base with
      | some v => some v
      | none =>
        let cleaned := stripChars (notes_str.filter (fun c => c ≠ ',' && c ≠ '，'))
        match firstDigitRun cleaned with
        | some ds =>
          let v : Nat := digitsToNat ds
          if 10000 ≤ v then some (v : Int) else none
        | none => none

/-- One row of the RX.X ledger sheet (readers/master_reader.py, `RxRow`).
Absent cells are `none`; they are distinct from explicit zeroes. -/
structure RxRow where
  room : String
  name : String
  installment_balance : Option Int := none
  rent : Option Int := none
  management : Option Int := none
  common : Option Int := none
  water : Option Int := none
  utility : Option Int := none
  meal : Option Int := none
  adjustment : Option Int := none
  diaper : Option Int := none
  daily_supplies : Option Int := none
  installment : Option Int := none
  office_fee : Option Int := none
  day_service : Option Int := none
  welfare_equip : Option Int := none
  pharmacy : Option Int := none
  doctor : Option Int := none
  support : Option Int := none
  other : Option Int := none
  subtotal : Option Int := none
  care_burden : Option Int := none
  nurse_burden : Option Int := none
  total : Option Int := none
  notes : Option String := none
  invoice_status : Option String := none
  remaining_balance : Option Int := none
deriving DecidableEq

/-- The derived welfare cap of a ledger row (a computed property in the
source, reading the notes field). -/
def RxRow.welfare_limit (r : RxRow) : Option Int :=
  welfare_limit_of_notes r.notes

/-- One row of the resident roster (readers/master_reader.py,
`ResidentMaster`). -/
structure ResidentMaster where
  room : String
  name : String
deriving DecidableEq

/-- Final billing data of one resident (calc/billing.py,
`BillingResult`). All charge fields are integers with default 0. -/
structure BillingResult where
  room : String
  name : String
  rent : Int := 0
  management : Int := 0
  common : Int := 0
  water : Int := 0
  utility : Int := 0
  meal : Int := 0
  adjustment : Int := 0
  diaper : Int := 0
  daily_supplies : Int := 0
  installment_balance : Int := 0
  installment : Int := 0
  office_fee : Int := 0
  day_service : Int := 0
  welfare_equip : Int := 0
  pharmacy : Int := 0
  doctor : Int := 0
  support : Int := 0
  other : Int := 0
  subtotal : Int := 0
  care_burden : Int := 0
  nurse_burden : Int := 0
  total : Int := 0
  notes : String := ""
  welfare_limit : Option Int := none
  remaining_balance : Int := 0
deriving DecidableEq

/-- The `fixed_total` property of calc/billing.py. -/
def BillingResult.fixed_total (b : BillingResult) : Int :=
  b.rent + b.management + b.common + b.water + b.utility

/-- Default fixed charges section of the configuration; each key may be
missing (`fixed.get(...)` yields `None` then). -/
structure FixedCharges where
  rent : Option Int := none
  management : Option Int := none
  common : Option Int := none
  water : Option Int := none
  utility : Option Int := none
deriving DecidableEq

/-- The parts of config.yaml the engine reads. Missing keys are `none`
or an empty table; the code supplies the defaults at the use sites. -/
structure Config where
  fixed_charges : FixedCharges := {}
  installment_monthly : Option Int := none
  nick_price_overrides : List (String × Int) := []
  nick_base_prices : List (String × Int) := []
  nick_markup_rate : Option ℚ := none

/-- The no-cap else branch of `build_billing` (calc/billing.py lines
169-187): zero adjustment, subtotal as the plain sum (including the
just-zeroed adjustment), total adds the two copays. -/
def noCapBranch (b : BillingResult) : BillingResult :=
  let b1 := { b with adjustment := 0 }
  let subtotal := b1.fixed_total + b1.meal + b1.adjustment + b1.diaper + b1.daily_supplies
      + b1.installment + b1.office_fee + b1.day_service + b1.welfare_equip + b1.pharmacy
      + b1.doctor + b1.support + b1.other
  { b1 with subtotal := subtotal, total := subtotal + b1.care_burden + b1.nurse_burden }

/-- Shallow embedding of `build_billing` (calc/billing.py lines 67-192).
The welfare-cap branch dispatches on the cap derived from the ledger row
notes, exactly as the source reads `result.welfare_limit`, which it has
just set to `rx_row.welfare_limit`. -/
def build_billing (rx_row : RxRow) (meal_amount diaper_amount supply_amount : Option Int)
    (config : Config) (is_new_month : Bool := false) : BillingResult :=
  let new_installment_balance :=
    if is_new_month then
      let nib := val0 rx_row.installment_balance - val0 rx_row.installment
      if nib < 0 then 0 else nib
    else val0 rx_row.installment_balance
  let new_installment :=
    if is_new_month then
      let installment_monthly := config.installment_monthly.getD 10000
      if 0 < new_installment_balance then installment_monthly else 0
    else val0 rx_row.installment
  let base : BillingResult :=
    { room := rx_row.room
      name := rx_row.name
      rent := val0 rx_row.rent
      management := val0 rx_row.management
      common := val0 rx_row.common
      water := val0 rx_row.water
      utility := val0 rx_row.utility
      meal := meal_amount.getD (val0 rx_row.meal)
      diaper := diaper_amount.getD (val0 rx_row.diaper)
      daily_supplies := supply_amount.getD (val0 rx_row.daily_supplies)
      installment_balance := new_installment_balance
      installment := new_installment
      office_fee := if is_new_month then 0 else val0 rx_row.office_fee
      day_service := if is_new_month then 0 else val0 rx_row.day_service
      welfare_equip := if is_new_month then 0 else val0 rx_row.welfare_equip
      pharmacy := if is_new_month then 0 else val0 rx_row.pharmacy
      doctor := if is_new_month then 0 else val0 rx_row.doctor
      support := if is_new_month then 0 else val0 rx_row.support
      other := if is_new_month then 0 else val0 rx_row.other
      care_burden := val0 rx_row.care_burden
      nurse_burden := val0 rx_row.nurse_burden
      notes := rx_row.notes.getD ""
      welfare_limit := RxRow.welfare_limit rx_row }
  let result :=
    match RxRow.welfare_limit rx_row with
    | some cap =>
      if 0 < cap then
        let needed_subtotal := cap - base.care_burden - base.nurse_burden
        let pre_adjustment_subtotal :=
          base.fixed_total + base.meal + base.diaper + base.daily_supplies + base.installment
            + base.office_fee + base.day_service + base.welfare_equip + base.pharmacy
            + base.doctor + base.support + base.other
        { base with adjustment := needed_subtotal - pre_adjustment_subtotal,
                    subtotal := needed_subtotal, total := cap }
      else noCapBranch base
    | none => noCapBranch base
  { result with remaining_balance := result.installment_balance - result.installment }

/-- C1: For every ledger row, build_billing satisfies the welfare-cap
invariant: with a positive derived cap, the adjustment back-solves so
that subtotal = cap - care_burden - nurse_burden and total = cap exactly,
whatever the sign of the adjustment; with no cap (or a non-positive one),
adjustment is 0, subtotal is the plain sum of the charge fields, and
total = subtotal + care_burden + nurse_burden. -/
theorem build_billing_welfare_branches (rx : RxRow) (m d s : Option Int) (cfg : Config)
    (inm : Bool) (r : BillingResult) (hr : r = build_billing rx m d s cfg inm) :
    (∀ cap : Int, RxRow.welfare_limit rx = some cap → 0 < cap →
        r.adjustment = (cap - r.care_burden - r.nurse_burden)
            - (r.fixed_total + r.meal + r.diaper + r.daily_supplies + r.installment
              + r.office_fee + r.day_service + r.welfare_equip + r.pharmacy + r.doctor
              + r.support + r.other)
          ∧ r.subtotal = cap - r.care_burden - r.nurse_burden
          ∧ r.total = cap)
    ∧ ((∀ cap : Int, RxRow.welfare_limit rx = some cap → cap ≤ 0) →
        r.adjustment = 0
          ∧ r.subtotal = r.fixed_total + r.meal + r.diaper + r.daily_supplies + r.installment
              + r.office_fee + r.day_service + r.welfare_equip + r.pharmacy + r.doctor
              + r.support + r.other
          ∧ r.total = r.subtotal + r.care_burden + r.nurse_burden) := by
  subst hr
  constructor
  · intro cap hcap hpos
    simp only [build_billing, hcap, if_pos hpos, BillingResult.fixed_total, noCapBranch]
    and_intros <;> trivial
  · intro h
    rcases hwl : RxRow.welfare_limit rx with _ | cap
    · simp only [build_billing, hwl, noCapBranch, BillingResult.fixed_total]
      and_intros <;> first | trivial | rfl | ring
    · have hle : ¬ (0 : Int) < cap := not_lt.mpr (h cap hwl)
      simp only [build_billing, hwl, if_neg hle, noCapBranch, BillingResult.fixed_total]
      and_intros <;> first | trivial | rfl | ring

/-- Concrete ledger rows used by the witnesses below. -/
def rxCap : RxRow :=
  { room := "101", name := "A", notes := some "9○", care_burden := some 5000,
    nurse_burden := some 1000, rent := some 30000 }

/-- Concrete ledger row with no welfare cap. -/
def rxNoCap : RxRow := { room := "102", name := "B", rent := some 30000 }

/-- Concrete ledger row with an installment balance. -/
def rxInst : RxRow :=
  { room := "103", name := "C", installment_balance := some 30000, installment := some 10000 }

/-- Witness for C1: a resident whose notes read as a 90000 cap hits the
cap exactly, and a resident with no notes gets a zero adjustment. -/
theorem build_billing_welfare_branches_witness :
    (build_billing rxCap (some 16500) none none {} false).total = 90000
    ∧ (build_billing rxNoCap none none none {} false).adjustment = 0 := by
  have h1 := build_billing_welfare_branches rxCap (some 16500) none none {} false _ rfl
  have h2 := build_billing_welfare_branches rxNoCap none none none {} false _ rfl
  exact ⟨(h1.1 90000 (by decide) (by decide)).2.2,
         (h2.2 (by intro cap hcap; simp [rxNoCap, RxRow.welfare_limit, welfare_limit_of_notes] at hcap)).1⟩

/-- C2: Under the new-month rollover, build_billing carries the
installment balance forward as max 0 (old balance - old payment), which
is never negative, assigns the configured monthly installment only while
a balance remains, clears the seven hand-entered fields, and the
remaining balance is the carried balance minus the fresh payment. -/
theorem build_billing_rollover (rx : RxRow) (m d s : Option Int) (cfg : Config)
    (r : BillingResult) (hr : r = build_billing rx m d s cfg true) :
    r.installment_balance = max 0 (val0 rx.installment_balance - val0 rx.installment)
      ∧ r.installment = (if 0 < r.installment_balance then cfg.installment_monthly.getD 10000 else 0)
      ∧ r.office_fee = 0 ∧ r.day_service = 0 ∧ r.welfare_equip = 0 ∧ r.pharmacy = 0
      ∧ r.doctor = 0 ∧ r.support = 0 ∧ r.other = 0
      ∧ r.remaining_balance = max 0 (val0 rx.installment_balance - val0 rx.installment) - r.installment
      ∧ 0 ≤ r.installment_balance := by
  subst hr
  rcases hwl : RxRow.welfare_limit rx with _ | cap
  · simp only [build_billing, hwl, noCapBranch, if_true]
    split_ifs <;> (and_intros <;> first | trivial | rfl | omega)
  · by_cases hpos : (0 : Int) < cap
    · simp only [build_billing, hwl, if_pos hpos, if_true]
      split_ifs <;> (and_intros <;> first | trivial | rfl | omega)
    · simp only [build_billing, hwl, if_neg hpos, noCapBranch, if_true]
      split_ifs <;> (and_intros <;> first | trivial | rfl | omega)

/-- Witness for C2: a resident with balance 30000 and payment 10000
rolls over with cleared hand-entered fields and a nonnegative balance. -/
theorem build_billing_rollover_witness :
    (build_billing rxInst none none none {} true).office_fee = 0
    ∧ 0 ≤ (build_billing rxInst none none none {} true).installment_balance := by
  have h := build_billing_rollover rxInst none none none {} _ rfl
  obtain ⟨h1, h2, h3, h4, h5, h6, h7, h8, h9, h10, h11⟩ := h
  exact ⟨h3, h11⟩


/-- Canonical-name model of `normalize_name` in utils/name_match.py:
remove every space character after Unicode NFKC normalization. The NFKC
step is modelled as the identity; on strings whose characters are
NFKC-fixed (ASCII letters and digits, CJK ideographs, kana without
width variants) this is exactly the source function. Every concrete
name appearing below is NFKC-fixed. -/
def normalize_name (s : String) : String :=
  String.mk ((s.data).filter (fun c => !isSpaceChar c))

/-- Number of positions where two zipped strings differ, as the
generator sum inside `_is_one_char_diff` counts them. -/
def countDiffs (s1 s2 : List Char) : Nat :=
  (List.zip s1 s2).countP (fun p => p.1 ≠ p.2)

/-- Models `_is_one_char_diff` of utils/name_match.py: same length, at
least two characters, exactly one differing position. -/
def is_one_char_diff (s1 s2 : List Char) : Bool :=
  if s1.length ≠ s2.length then false
  else if s1.length < 2 then false
  else countDiffs s1 s2 = 1

/-- Models `names_match` of utils/name_match.py. -/
def names_match (name1 name2 : String) : Bool :=
  let n1 := normalize_name name1
  let n2 := normalize_name name2
  if n1 = "" ∨ n2 = "" then false
  else if n1 = n2 then true
  else is_one_char_diff n1.data n2.data

/-- Models `find_best_match` of utils/name_match.py: three tiers, each
scanning the candidate list in order, Python substring containment
rendered as list infix. -/
def find_best_match (target_name : String) (candidates : List String) : Option String :=
  if target_name = "" then none
  else
    let target_norm := normalize_name target_name
    if target_norm = "" then none
    else
      match candidates.find? (fun c => normalize_name c == target_norm) with
      | some c => some c
      | none =>
        match candidates.find? (fun c =>
            (normalize_name c != "") && is_one_char_diff target_norm.data (normalize_name c).data) with
        | some c => some c
        | none =>
          candidates.find? (fun c =>
            (normalize_name c != "") && (decide (target_norm.data <:+: (normalize_name c).data)
              || decide ((normalize_name c).data <:+: target_norm.data)))

/-- First tier of the matcher: canonical exact equality. -/
def exactTier (t c : String) : Prop := normalize_name c = normalize_name t

/-- Second tier of the matcher: candidate with non-empty canonical form
at distance exactly one character. -/
def oneDiffTier (t c : String) : Prop :=
  normalize_name c ≠ "" ∧ is_one_char_diff (normalize_name t).data (normalize_name c).data = true

/-- Third tier of the matcher: candidate with non-empty canonical form
containing, or contained in, the canonical target. -/
def subTier (t c : String) : Prop :=
  normalize_name c ≠ "" ∧ ((normalize_name t).data <:+: (normalize_name c).data
    ∨ (normalize_name c).data <:+: (normalize_name t).data)

/-- A find over a split list resolves to the marked element when the
predicate fails on everything before it and holds on it. -/
theorem find?_first_of {α : Type} (p : α → Bool) (l1 : List α) (c : α) (l2 : List α)
    (h1 : ∀ x ∈ l1, p x = false) (hc : p c = true) :
    (l1 ++ c :: l2).find? p = some c := by
  induction l1 with
  | nil => simp [List.find?, hc]
  | cons a l ih =>
    have ha := h1 a (by simp)
    simp only [List.cons_append, List.find?, ha]
    exact ih (fun x hx => h1 x (by simp [hx]))

/-- C3 (counterexample): the claim says the substring tier fires for any
candidate whose canonical form is contained in the canonical target, and
the empty canonical form is contained in everything; yet on target "ab"
with single candidate "" the matcher returns nothing, because the code
additionally requires a non-empty canonical candidate (and separately
returns nothing whenever the target itself is empty). -/
theorem find_best_match_empty_candidate_counterexample :
    find_best_match "ab" [""] = none
      ∧ (normalize_name "").data <:+: (normalize_name "ab").data := by
  refine ⟨by decide, ⟨[], (normalize_name "ab").data, by decide⟩⟩

/-- C3 (amended): with a non-empty target whose canonical form is also
non-empty, the tiers apply in strict priority order with early exit and
first-candidate-wins inside each tier — canonical exact equality, then
one-character difference (only candidates with non-empty canonical form,
never strings shorter than two characters), then substring containment
either way (again only candidates with non-empty canonical form) — and
the matcher returns nothing when no tier yields a candidate. -/
theorem find_best_match_tiers (t : String) (cs : List String)
    (h1 : t ≠ "") (h2 : normalize_name t ≠ "") :
    (∀ l1 c l2, cs = l1 ++ c :: l2 → exactTier t c → (∀ x ∈ l1, ¬ exactTier t x) →
        find_best_match t cs = some c)
    ∧ (∀ l1 c l2, cs = l1 ++ c :: l2 → oneDiffTier t c → (∀ x ∈ cs, ¬ exactTier t x) →
        (∀ x ∈ l1, ¬ oneDiffTier t x) → find_best_match t cs = some c)
    ∧ (∀ l1 c l2, cs = l1 ++ c :: l2 → subTier t c → (∀ x ∈ cs, ¬ exactTier t x) →
        (∀ x ∈ cs, ¬ oneDiffTier t x) → (∀ x ∈ l1, ¬ subTier t x) →
        find_best_match t cs = some c)
    ∧ ((∀ x ∈ cs, ¬ exactTier t x ∧ ¬ oneDiffTier t x ∧ ¬ subTier t x) →
        find_best_match t cs = none) := by
  refine ⟨?_, ?_, ?_, ?_⟩
  · rintro l1 c l2 rfl hc hl1
    have hcb : (normalize_name c == normalize_name t) = true := beq_iff_eq.mpr hc
    have hf : ∀ x ∈ l1, (normalize_name x == normalize_name t) = false := by
      intro x hx
      simpa [exactTier] using hl1 x hx
    simp only [find_best_match, if_neg h1, if_neg h2]
    rw [find?_first_of _ _ _ _ hf hcb]
  · rintro l1 c l2 rfl hc hcs hl1
    have hnone : (l1 ++ c :: l2).find? (fun x => normalize_name x == normalize_name t) = none := by
      rw [List.find?_eq_none]
      intro x hx
      simpa [exactTier] using hcs x hx
    have hcb : ((normalize_name c != "") && is_one_char_diff (normalize_name t).data (normalize_name c).data) = true := by
      simp only [Bool.and_eq_true, bne_iff_ne]
      exact hc
    have hf : ∀ x ∈ l1, ((normalize_name x != "") && is_one_char_diff (normalize_name t).data (normalize_name x).data) = false := by
      intro x hx
      have := hl1 x hx
      simp only [oneDiffTier, not_and_or] at this
      rcases this with h | h
      · simp [bne_iff_ne, not_not.mp (by simpa using h)]
      · simp [h]
    simp only [find_best_match, if_neg h1, if_neg h2, hnone]
    rw [find?_first_of _ _ _ _ hf hcb]
  · rintro l1 c l2 rfl hc hcs1 hcs2 hl1
    have hnone1 : (l1 ++ c :: l2).find? (fun x => normalize_name x == normalize_name t) = none := by
      rw [List.find?_eq_none]
      intro x hx
      simpa [exactTier] using hcs1 x hx
    have hnone2 : (l1 ++ c :: l2).find? (fun x =>
        (normalize_name x != "") && is_one_char_diff (normalize_name t).data (normalize_name x).data) = none := by
      rw [List.find?_eq_none]
      intro x hx
      have := hcs2 x hx
      simp only [oneDiffTier, not_and_or] at this
      rcases this with h | h
      · simp [bne_iff_ne, not_not.mp (by simpa using h)]
      · simp [h]
    have hcb : ((normalize_name c != "") && (decide ((normalize_name t).data <:+: (normalize_name c).data)
        || decide ((normalize_name c).data <:+: (normalize_name t).data))) = true := by
      simp only [Bool.and_eq_true, bne_iff_ne, Bool.or_eq_true, decide_eq_true_iff]
      exact hc
    have hf : ∀ x ∈ l1, ((normalize_name x != "") && (decide ((normalize_name t).data <:+: (normalize_name x).data)
        || decide ((normalize_name x).data <:+: (normalize_name t).data))) = false := by
      intro x hx
      have := hl1 x hx
      simp only [subTier, not_and_or] at this
      rcases this with h | h
      · simp [bne_iff_ne, not_not.mp (by simpa using h)]
      · simp only [not_or] at h
        simp [h.1, h.2]
    simp only [find_best_match, if_neg h1, if_neg h2, hnone1, hnone2]
    rw [find?_first_of _ _ _ _ hf hcb]
  · intro hcs
    have hnone1 : cs.find? (fun x => normalize_name x == normalize_name t) = none := by
      rw [List.find?_eq_none]
      intro x hx
      simpa [exactTier] using (hcs x hx).1
    have hnone2 : cs.find? (fun x =>
        (normalize_name x != "") && is_one_char_diff (normalize_name t).data (normalize_name x).data) = none := by
      rw [List.find?_eq_none]
      intro x hx
      have := (hcs x hx).2.1
      simp only [oneDiffTier, not_and_or] at this
      rcases this with h | h
      · simp [bne_iff_ne, not_not.mp (by simpa using h)]
      · simp [h]
    have hnone3 : cs.find? (fun x =>
        (normalize_name x != "") && (decide ((normalize_name t).data <:+: (normalize_name x).data)
          || decide ((normalize_name x).data <:+: (normalize_name t).data))) = none := by
      rw [List.find?_eq_none]
      intro x hx
      have := (hcs x hx).2.2
      simp only [subTier, not_and_or] at this
      rcases this with h | h
      · simp [bne_iff_ne, not_not.mp (by simpa using h)]
      · simp only [not_or] at h
        simp [h.1, h.2]
    simp only [find_best_match, if_neg h1, if_neg h2, hnone1, hnone2, hnone3]

/-- Witness for C3: on target "a b" (canonically "ab") the exact tier
picks the candidate "ab" past a non-matching first candidate. -/
theorem find_best_match_tiers_witness :
    ("a b" : String) ≠ "" ∧ normalize_name "a b" ≠ ""
      ∧ find_best_match "a b" ["zz", "ab"] = some "ab" := by
  refine ⟨by decide, by decide, ?_⟩
  exact (find_best_match_tiers "a b" ["zz", "ab"] (by decide) (by decide)).1 ["zz"] "ab" []
    rfl (by unfold exactTier; decide)
    (by intro x hx; simp only [List.mem_singleton] at hx; subst hx; unfold exactTier; decide)

/-- C9 (counterexample): names_match also accepts two names whose
canonical forms differ in exactly one character, so it is not
equivalent to canonical equality. -/
theorem names_match_one_char_diff_counterexample :
    names_match "ab" "ac" = true ∧ normalize_name "ab" ≠ normalize_name "ac" := by decide

/-- C9 (amended): names_match holds exactly when both canonical forms
are non-empty and are either equal or same-length strings of at least
two characters differing in exactly one position. -/
theorem names_match_iff (a b : String) :
    names_match a b = true ↔
      (normalize_name a ≠ "" ∧ normalize_name b ≠ "" ∧
        (normalize_name a = normalize_name b
          ∨ is_one_char_diff (normalize_name a).data (normalize_name b).data = true)) := by
  simp only [names_match]
  split_ifs with h h2
  · rcases h with h | h <;> simp [h]
  · simp_all [not_or]
  · simp_all [not_or]


/-- Accumulator pass splitting a string into its maximal digit runs, in
order of appearance. -/
def digitRunsAux : List Char → List Char → List (List Char)
  | cur, [] => if cur.isEmpty then [] else [cur.reverse]
  | cur, c :: rest =>
    if c.isDigit then digitRunsAux (c :: cur) rest
    else if cur.isEmpty then digitRunsAux [] rest
    else cur.reverse :: digitRunsAux [] rest

/-- All maximal digit runs of a string, in order of appearance. -/
def digitRuns (l : List Char) : List (List Char) := digitRunsAux [] l

/-- Spec-side reading of the C4 claim, phrase by phrase: the part of the
notes before the first plus separator must BEGIN with an integer
IMMEDIATELY followed by a circle glyph; otherwise the comma-stripped
notes CONTAIN a digit run of value at least 10000 (the first such run
is taken, which is the only deterministic reading and agrees with the
claim on the inputs below). -/
def beginsIntCircle (l : List Char) : Option Int :=
  let ds := l.takeWhile (fun c => c.isDigit)
  if ds.isEmpty then none
  else
    match l.drop ds.length with
    | c :: _ => if c = '○' || c = '〇' then some ((digitsToNat ds : Int) * 10000) else none
    | [] => none

/-- Spec-side cap derivation following the claim wording of C4. -/
def welfareCapClaim (notes : Option String) : Option Int :=
  match notes with
  | none => none
  | some s =>
    let base := s.data.takeWhile (fun c => c ≠ '+')
    match beginsIntCircle base with
    | some v => some v
    | none =>
      let cleaned := s.data.filter (fun c => c ≠ ',' && c ≠ '，')
      match (digitRuns cleaned).find? (fun r => 10000 ≤ digitsToNat r) with
      | some r => some ((digitsToNat r : Int))
      | none => none

/-- Amended spec-side cap derivation: whitespace may separate the
leading integer from the circle glyph, surrounding whitespace is
stripped, and the literal fallback looks only at the FIRST digit run of
the comma-stripped notes. -/
def welfareCapAmended (notes : Option String) : Option Int :=
  match notes with
  | none => none
  | some s =>
    if s = "" then none
    else
      let base := stripChars ((stripChars s.data).takeWhile (fun c => c ≠ '+'))
      match circleCap base with
      | some v => some v
      | none =>
        let cleaned := stripChars ((stripChars s.data).filter (fun c => c ≠ ',' && c ≠ '，'))
        match (digitRuns cleaned).head? with
        | some r => if 10000 ≤ digitsToNat r then some ((digitsToNat r : Int)) else none
        | none => none

/-- Nonempty accumulator: the head run extends the accumulator with the
leading digits of the remainder. -/
theorem digitRunsAux_head_nonempty (l cur : List Char) (h : ¬ cur.isEmpty) :
    (digitRunsAux cur l).head? = some (cur.reverse ++ l.takeWhile (fun c => c.isDigit)) := by
  induction l generalizing cur with
  | nil => simp [digitRunsAux, h]
  | cons c rest ih =>
    by_cases hc : c.isDigit
    · have hne : ¬ (c :: cur).isEmpty := by simp
      simp [digitRunsAux, hc, ih (c :: cur) hne, List.takeWhile]
    · simp [digitRunsAux, hc, h, List.takeWhile]

/-- The regex search for the first digit run returns exactly the head of
the list of maximal digit runs. -/
theorem firstDigitRun_eq_head_digitRuns (l : List Char) :
    firstDigitRun l = (digitRuns l).head? := by
  unfold digitRuns
  induction l with
  | nil => simp [firstDigitRun, digitRunsAux]
  | cons c rest ih =>
    by_cases hc : c.isDigit
    · have hne : ¬ ([c] : List Char).isEmpty := by simp
      simp [firstDigitRun, digitRunsAux, hc, digitRunsAux_head_nonempty rest [c] hne]
    · simp [firstDigitRun, digitRunsAux, hc, ih]

/-- C4 (counterexample): with notes "9 ○" (digit, space, circle) the code
reads the cap 90000 although the digits are not immediately followed by
the circle glyph, so the claim predicts no cap; with notes "1 80000" the
code reads no cap because only the first digit run (value 1) is
examined, although a digit run of value 80000 at least 10000 is
contained, so the claim predicts the cap 80000. -/
theorem welfare_limit_notes_counterexample :
    welfare_limit_of_notes (some "9 ○") = some 90000 ∧ welfareCapClaim (some "9 ○") = none
      ∧ welfare_limit_of_notes (some "1 80000") = none
      ∧ welfareCapClaim (some "1 80000") = some 80000 := by decide

/-- C4 (amended): the cap derived from the notes equals the amended
spec-side derivation for every notes value. -/
theorem welfare_limit_amended (notes : Option String) :
    welfare_limit_of_notes notes = welfareCapAmended notes := by
  rcases notes with _ | s
  · rfl
  · simp only [welfare_limit_of_notes, welfareCapAmended]
    by_cases h : s = ""
    · simp [h]
    · rw [if_neg h, if_neg h, firstDigitRun_eq_head_digitRuns]


/-- Python dictionary lookup on an association-list model. -/
def dictGet {α : Type} (l : List (String × α)) (k : String) : Option α :=
  (l.find? (fun p => p.1 == k)).map (fun p => p.2)

/-- Python dictionary assignment: update the value in place when the
key exists, append otherwise. -/
def dictInsert {α : Type} : List (String × α) → String → α → List (String × α)
  | [], k, v => [(k, v)]
  | (k0, v0) :: rest, k, v =>
    if k0 = k then (k, v) :: rest else (k0, v0) :: dictInsert rest k v

/-- The result-map update of calc_all_nick: add componentwise onto an
existing entry of the room, append a fresh entry otherwise. -/
def dictAddPair : List (String × (Int × Int)) → String → Int × Int → List (String × (Int × Int))
  | [], k, v => [(k, v)]
  | (k0, v0) :: rest, k, v =>
    if k0 = k then (k0, (v0.1 + v.1, v0.2 + v.2)) :: rest
    else (k0, v0) :: dictAddPair rest k v

/-- One set of one usage record (readers/nick_reader.py,
`NickSetRecord`). -/
structure NickSetRecord where
  set_type : String
  use_days : List Nat := []
  day_count : Int := 0
deriving DecidableEq

/-- One usage record (readers/nick_reader.py, `NickRecord`). -/
structure NickRecord where
  station : String := ""
  user_id : String := ""
  name : String
  sets : List NickSetRecord := []
deriving DecidableEq

/-- The static diaper category table of readers/nick_reader.py. -/
def DIAPER_SETS : List String :=
  ["Ａ", "Ｂ", "Ｃ", "Ｄ", "Ｅ", "Ｆ", "Ｇ", "a", "b", "c", "d"]

/-- The static daily-supply category table of readers/nick_reader.py. -/
def SUPPLY_SETS : List String := ["用", "福", "ふ", "に"]

/-- The `is_diaper` property of readers/nick_reader.py. -/
def NickSetRecord.is_diaper (s : NickSetRecord) : Bool := DIAPER_SETS.contains s.set_type

/-- The `is_supply` property of readers/nick_reader.py. -/
def NickSetRecord.is_supply (s : NickSetRecord) : Bool := SUPPLY_SETS.contains s.set_type

/-- Models `calc_nick_billing_price` of utils/helpers.py: override table
first, then base price marked up by the configured rate (default 1.21)
and rounded half-up via floor of x + 1/2; the float arithmetic of the
source is modelled over the rationals. The ValueError raised on an
unknown set type is modelled as `none`. -/
def calc_nick_billing_price (set_type : String) (config : Config) : Option Int :=
  match dictGet config.nick_price_overrides set_type with
  | some p => some p
  | none =>
    match dictGet config.nick_base_prices set_type with
    | none => none
    | some base =>
      let rate := config.nick_markup_rate.getD (121 / 100 : ℚ)
      some (Rat.floor ((base : ℚ) * rate + 1 / 2))

/-- Models `calc_nick_billing` of calc/nick_calc.py: accumulate each
priced set into the diaper or supply bucket; a set with no price is
skipped (the source catches the ValueError, logs and continues). -/
def calc_nick_billing (record : NickRecord) (config : Config) : Int × Int :=
  record.sets.foldl (fun acc s =>
    match calc_nick_billing_price s.set_type config with
    | none => acc
    | some price =>
      let amount := s.day_count * price
      if s.is_diaper then (acc.1 + amount, acc.2)
      else if s.is_supply then (acc.1, acc.2 + amount)
      else acc) (0, 0)

/-- One step of the reverse-index construction in calc_all_nick
(calc/nick_calc.py lines 78-82): skip names with empty canonical form,
later entries overwrite earlier ones. -/
def build_name_to_room_step (acc : List (String × String)) (p : String × String) :
    List (String × String) :=
  let norm := normalize_name p.2
  if norm = "" then acc else dictInsert acc norm p.1

/-- The canonical-name to room reverse index of calc_all_nick. -/
def build_name_to_room (room_name_map : List (String × String)) : List (String × String) :=
  room_name_map.foldl build_name_to_room_step []

/-- The per-record room resolution of calc_all_nick (calc/nick_calc.py
lines 92-117): dictionary lookup of the canonical name, then the
one-character-difference scan, then the substring scan, over the index
in insertion order. -/
def resolve_room (name_to_room : List (String × String)) (nick_name_norm : String) : Option String :=
  match dictGet name_to_room nick_name_norm with
  | some room => some room
  | none =>
    match name_to_room.find? (fun p =>
        (nick_name_norm != "") && (p.1 != "") && is_one_char_diff nick_name_norm.data p.1.data) with
    | some p => some p.2
    | none =>
      (name_to_room.find? (fun p =>
        (nick_name_norm != "") && (p.1 != "") &&
          (decide (nick_name_norm.data <:+: p.1.data) || decide (p.1.data <:+: nick_name_norm.data)))).map
        (fun p => p.2)

/-- One iteration of the record loop of calc_all_nick (calc/nick_calc.py
lines 87-127): skip records whose two computed totals are both zero,
add resolved totals into the result map, collect unresolved records. -/
def calc_all_nick_step (name_to_room : List (String × String)) (config : Config)
    (acc : List (String × (Int × Int)) × List NickRecord) (nr : NickRecord) :
    List (String × (Int × Int)) × List NickRecord :=
  let ds := calc_nick_billing nr config
  if ds.1 = 0 ∧ ds.2 = 0 then acc
  else
    match resolve_room name_to_room (normalize_name nr.name) with
    | some room => (dictAddPair acc.1 room ds, acc.2)
    | none => (acc.1, acc.2 ++ [nr])

/-- Models `calc_all_nick` of calc/nick_calc.py. The source logs the
unmatched records at the end and returns only the map; the embedding
returns the unmatched list as the second component, which is exactly
what the source reports. -/
def calc_all_nick (nick_records : List NickRecord) (room_name_map : List (String × String))
    (config : Config) : List (String × (Int × Int)) × List NickRecord :=
  nick_records.foldl (calc_all_nick_step (build_name_to_room room_name_map) config) ([], [])

/-- Componentwise sum of the computed totals of a list of records. -/
def sumTotals (cfg : Config) (l : List NickRecord) : Int × Int :=
  l.foldr (fun nr acc => ((calc_nick_billing nr cfg).1 + acc.1, (calc_nick_billing nr cfg).2 + acc.2))
    (0, 0)

/-- A record contributes to a room when its totals are not both zero
and its name resolves to that room. -/
def nick_contributes (n2r : List (String × String)) (cfg : Config) (room : String)
    (nr : NickRecord) : Bool :=
  (!((calc_nick_billing nr cfg).1 == 0 && (calc_nick_billing nr cfg).2 == 0))
    && (resolve_room n2r (normalize_name nr.name) == some room)

/-- A record is unmatched when its totals are not both zero and its
name resolves to no room. -/
def nick_unmatched (n2r : List (String × String)) (cfg : Config) (nr : NickRecord) : Bool :=
  (!((calc_nick_billing nr cfg).1 == 0 && (calc_nick_billing nr cfg).2 == 0))
    && (resolve_room n2r (normalize_name nr.name)).isNone

/-- Lookup on a cons cell of the dictionary model. -/
theorem dictGet_cons {α : Type} (k1 : String) (v1 : α) (rest : List (String × α)) (k0 : String) :
    dictGet ((k1, v1) :: rest) k0 = if k1 = k0 then some v1 else dictGet rest k0 := by
  by_cases h : k1 = k0
  · simp [dictGet, List.find?_cons_of_pos, h]
  · simp [dictGet, List.find?_cons_of_neg, h]

/-- Lookup after an add-update: the addressed key gains the componentwise
sum, all other keys are untouched. -/
theorem dictGet_dictAddPair (res : List (String × (Int × Int))) (k : String) (v : Int × Int)
    (k0 : String) :
    dictGet (dictAddPair res k v) k0 =
      if k0 = k then
        some (((dictGet res k).getD (0, 0)).1 + v.1, ((dictGet res k).getD (0, 0)).2 + v.2)
      else dictGet res k0 := by
  induction res with
  | nil =>
    by_cases h : k0 = k
    · subst h
      simp [dictAddPair, dictGet_cons, dictGet]
    · have h' : ¬ k = k0 := fun hh => h hh.symm
      simp only [dictAddPair]
      rw [dictGet_cons, if_neg h', if_neg h]
  | cons p rest ih =>
    obtain ⟨k1, v1⟩ := p
    have hdef : dictAddPair ((k1, v1) :: rest) k v
        = if k1 = k then (k1, (v1.1 + v.1, v1.2 + v.2)) :: rest
          else (k1, v1) :: dictAddPair rest k v := rfl
    rw [hdef]
    by_cases h1 : k1 = k
    · rw [if_pos h1]
      by_cases h0 : k0 = k
      · rw [if_pos h0, dictGet_cons, if_pos (h1.trans h0.symm), dictGet_cons, if_pos h1]
        simp
      · have hne : ¬ k1 = k0 := fun hh => h0 (hh.symm.trans h1)
        rw [if_neg h0, dictGet_cons, if_neg hne, dictGet_cons, if_neg hne]
    · rw [if_neg h1, dictGet_cons]
      by_cases h0 : k1 = k0
      · rw [if_pos h0, if_neg (fun hh : k0 = k => h1 (h0.trans hh)), dictGet_cons, if_pos h0]
      · rw [if_neg h0, ih]
        by_cases hk : k0 = k
        · rw [if_pos hk, if_pos hk, dictGet_cons, if_neg h1]
        · rw [if_neg hk, if_neg hk, dictGet_cons, if_neg h0]

/-- Sum of totals over no records. -/
theorem sumTotals_nil (cfg : Config) : sumTotals cfg [] = (0, 0) := rfl

/-- Sum of totals over a cons. -/
theorem sumTotals_cons (cfg : Config) (nr : NickRecord) (l : List NickRecord) :
    sumTotals cfg (nr :: l) =
      ((calc_nick_billing nr cfg).1 + (sumTotals cfg l).1,
       (calc_nick_billing nr cfg).2 + (sumTotals cfg l).2) := rfl

/-- Invariant of the record loop of calc_all_nick, for an arbitrary
starting state: the unmatched list grows by exactly the unmatched
records, and each room of the result map holds its starting value plus
the sum of the totals of the records contributing to it. -/
theorem calc_all_nick_fold (n2r : List (String × String)) (cfg : Config)
    (records : List NickRecord) (res0 : List (String × (Int × Int))) (unm0 : List NickRecord) :
    (records.foldl (calc_all_nick_step n2r cfg) (res0, unm0)).2
        = unm0 ++ records.filter (nick_unmatched n2r cfg)
    ∧ ∀ room : String,
        dictGet (records.foldl (calc_all_nick_step n2r cfg) (res0, unm0)).1 room =
          (if (records.filter (nick_contributes n2r cfg room)).isEmpty then dictGet res0 room
           else
            some (((dictGet res0 room).getD (0, 0)).1
                    + (sumTotals cfg (records.filter (nick_contributes n2r cfg room))).1,
                  ((dictGet res0 room).getD (0, 0)).2
                    + (sumTotals cfg (records.filter (nick_contributes n2r cfg room))).2)) := by
  induction records generalizing res0 unm0 with
  | nil => simp
  | cons r rest ih =>
    by_cases hz : (calc_nick_billing r cfg).1 = 0 ∧ (calc_nick_billing r cfg).2 = 0
    · have hstep : calc_all_nick_step n2r cfg (res0, unm0) r = (res0, unm0) := by
        simp [calc_all_nick_step, hz]
      have hU : nick_unmatched n2r cfg r = false := by
        simp [nick_unmatched, hz.1, hz.2]
      have hC : ∀ room, nick_contributes n2r cfg room r = false := by
        intro room
        simp [nick_contributes, hz.1, hz.2]
      constructor
      · rw [List.foldl_cons, hstep, (ih res0 unm0).1, List.filter_cons, hU]
        simp
      · intro room
        rw [List.foldl_cons, hstep, (ih res0 unm0).2 room, List.filter_cons, hC room]
        simp
    · rcases hres : resolve_room n2r (normalize_name r.name) with _ | room0
      · have hstep : calc_all_nick_step n2r cfg (res0, unm0) r = (res0, unm0 ++ [r]) := by
          simp [calc_all_nick_step, hz, hres]
        have hU : nick_unmatched n2r cfg r = true := by
          simp only [nick_unmatched, hres, Option.isNone_none, Bool.and_true,
            Bool.not_eq_true', Bool.and_eq_false_iff, beq_eq_false_iff_ne, ne_eq]
          omega
        have hC : ∀ room, nick_contributes n2r cfg room r = false := by
          intro room
          simp [nick_contributes, hres]
        constructor
        · rw [List.foldl_cons, hstep, (ih res0 (unm0 ++ [r])).1, List.filter_cons, hU]
          simp
        · intro room
          rw [List.foldl_cons, hstep, (ih res0 (unm0 ++ [r])).2 room, List.filter_cons, hC room]
          simp
      · have hstep : calc_all_nick_step n2r cfg (res0, unm0) r
            = (dictAddPair res0 room0 (calc_nick_billing r cfg), unm0) := by
          simp [calc_all_nick_step, hz, hres]
        have hU : nick_unmatched n2r cfg r = false := by
          simp [nick_unmatched, hres]
        have hC : ∀ room, nick_contributes n2r cfg room r = (room0 == room) := by
          intro room
          simp only [nick_contributes, hres]
          by_cases h : room0 = room
          · subst h
            simp only [beq_self_eq_true, Bool.and_true, Bool.not_eq_true',
              Bool.and_eq_false_iff, beq_eq_false_iff_ne, ne_eq]
            omega
          · simp [h]
        constructor
        · rw [List.foldl_cons, hstep, (ih _ unm0).1, List.filter_cons, hU]
          simp
        · intro room
          rw [List.foldl_cons, hstep, (ih _ unm0).2 room, List.filter_cons, hC room]
          by_cases h : room0 = room
          · subst h
            rw [dictGet_dictAddPair res0 room0 (calc_nick_billing r cfg) room0, if_pos rfl]
            simp only [beq_self_eq_true, eq_self_iff_true, if_true, List.isEmpty_cons,
              Bool.false_eq_true, if_false, sumTotals_cons]
            by_cases he : (rest.filter (nick_contributes n2r cfg room0)).isEmpty
            · have hel : rest.filter (nick_contributes n2r cfg room0) = [] :=
                List.isEmpty_iff.mp he
              rw [if_pos he, hel]
              simp [sumTotals_nil]
            · rw [if_neg he]
              simp only [Option.getD_some, Option.some.injEq, Prod.mk.injEq]
              constructor <;> ring
          · have hb : (room0 == room) = false := by simp [h]
            rw [hb]
            simp only [Bool.false_eq_true, if_false]
            rw [dictGet_dictAddPair res0 room0 (calc_nick_billing r cfg) room,
              if_neg (show ¬ room = room0 from fun hh => h hh.symm)]



/-- C7: calc_all_nick processes only records whose computed totals are
not both zero; every record whose name resolves to a room has its
totals summed componentwise into that room of the returned map; a
record whose name resolves to no room is reported as an unmatched
diagnostic item, contributes to no room, and does not fail the run. -/
theorem calc_all_nick_spec (records : List NickRecord) (room_name_map : List (String × String))
    (cfg : Config) :
    (calc_all_nick records room_name_map cfg).2
        = records.filter (nick_unmatched (build_name_to_room room_name_map) cfg)
    ∧ ∀ room : String,
        dictGet (calc_all_nick records room_name_map cfg).1 room =
          (if (records.filter (nick_contributes (build_name_to_room room_name_map) cfg room)).isEmpty
           then none
           else some (sumTotals cfg
              (records.filter (nick_contributes (build_name_to_room room_name_map) cfg room)))) := by
  have h := calc_all_nick_fold (build_name_to_room room_name_map) cfg records [] []
  constructor
  · simpa [calc_all_nick] using h.1
  · intro room
    have h2 := h.2 room
    simp only [calc_all_nick]
    rw [h2]
    by_cases he : (records.filter (nick_contributes (build_name_to_room room_name_map) cfg room)).isEmpty
    · rw [if_pos he, if_pos he]
      rfl
    · rw [if_neg he, if_neg he]
      simp [dictGet]

/-- C8: a set whose set type has no price (absent from the override and
the base-price tables) contributes nothing to either bucket while the
remaining sets of the record still compute, and a priced set absent
from both static category tables contributes to neither bucket. -/
theorem calc_nick_billing_skip (cfg : Config) (nr : NickRecord)
    (pre post : List NickSetRecord) (s : NickSetRecord) (hsets : nr.sets = pre ++ s :: post) :
    (calc_nick_billing_price s.set_type cfg = none →
        calc_nick_billing nr cfg = calc_nick_billing { nr with sets := pre ++ post } cfg)
    ∧ (∀ p : Int, calc_nick_billing_price s.set_type cfg = some p →
        s.set_type ∉ DIAPER_SETS → s.set_type ∉ SUPPLY_SETS →
        calc_nick_billing nr cfg = calc_nick_billing { nr with sets := pre ++ post } cfg) := by
  constructor
  · intro hp
    simp only [calc_nick_billing, hsets]
    rw [List.foldl_append, List.foldl_append, List.foldl_cons]
    simp [hp]
  · intro p hp hd hsup
    have hd' : s.is_diaper = false := by
      simpa [NickSetRecord.is_diaper] using hd
    have hs' : s.is_supply = false := by
      simpa [NickSetRecord.is_supply] using hsup
    simp only [calc_nick_billing, hsets]
    rw [List.foldl_append, List.foldl_append, List.foldl_cons]
    simp [hp, hd', hs']

/-- Concrete configuration for the C8 witness: two priced set types. -/
def cfgNickW : Config := { nick_price_overrides := [("Ｂ", 500), ("ｚ", 10)] }

/-- Concrete priced diaper set. -/
def setB : NickSetRecord := { set_type := "Ｂ", day_count := 2 }

/-- Concrete set with no price configured. -/
def setX : NickSetRecord := { set_type := "ｘ", day_count := 3 }

/-- Concrete priced set belonging to neither category table. -/
def setZ : NickSetRecord := { set_type := "ｚ", day_count := 4 }

/-- Concrete record with an unpriced set. -/
def nrX : NickRecord := { name := "D", sets := [setX, setB] }

/-- Concrete record with a priced but unclassified set. -/
def nrZ : NickRecord := { name := "E", sets := [setZ, setB] }

/-- Witness for C8: the unpriced set and the unclassified set drop out
of the computation of their records. -/
theorem calc_nick_billing_skip_witness :
    calc_nick_billing nrX cfgNickW = calc_nick_billing { nrX with sets := [setB] } cfgNickW
      ∧ calc_nick_billing nrZ cfgNickW = calc_nick_billing { nrZ with sets := [setB] } cfgNickW := by
  constructor
  · exact (calc_nick_billing_skip cfgNickW nrX [] [setB] setX rfl).1 (by decide)
  · exact (calc_nick_billing_skip cfgNickW nrZ [] [setB] setZ rfl).2 10 (by decide) (by decide)
      (by decide)

/-- Lookup after a dictionary insert. -/
theorem dictGet_dictInsert {α : Type} (d : List (String × α)) (k : String) (v : α) (k0 : String) :
    dictGet (dictInsert d k v) k0 = if k = k0 then some v else dictGet d k0 := by
  induction d with
  | nil =>
    by_cases h : k = k0 <;> simp [dictInsert, dictGet_cons, h, dictGet]
  | cons p rest ih =>
    obtain ⟨k1, v1⟩ := p
    have hdef : dictInsert ((k1, v1) :: rest) k v
        = if k1 = k then (k, v) :: rest else (k1, v1) :: dictInsert rest k v := rfl
    rw [hdef]
    by_cases h1 : k1 = k
    · rw [if_pos h1, dictGet_cons, dictGet_cons]
      by_cases h0 : k = k0
      · rw [if_pos h0, if_pos h0]
      · rw [if_neg h0, if_neg h0, if_neg (fun hh : k1 = k0 => h0 (h1.symm.trans hh))]
    · rw [if_neg h1, dictGet_cons, ih]
      by_cases h0 : k = k0
      · rw [if_pos h0, if_pos h0, if_neg (fun hh : k1 = k0 => h1 (hh.trans h0.symm))]
      · by_cases hb : k1 = k0
        · rw [if_pos hb, if_neg h0, dictGet_cons, if_pos hb]
        · rw [if_neg hb, if_neg h0, if_neg h0, dictGet_cons, if_neg hb]

/-- Invariant of the reverse-index construction: a non-empty key maps to
the room of the last map entry whose canonical name equals it, falling
back to the starting dictionary. -/
theorem dictGet_build_aux (m : List (String × String)) (acc : List (String × String)) (k : String)
    (hk : k ≠ "") :
    dictGet (m.foldl build_name_to_room_step acc) k =
      (match m.reverse.find? (fun p => normalize_name p.2 == k) with
       | some p => some p.1
       | none => dictGet acc k) := by
  induction m generalizing acc with
  | nil => rfl
  | cons p rest ih =>
    rw [List.foldl_cons, ih (build_name_to_room_step acc p), List.reverse_cons, List.find?_append]
    rcases hr : rest.reverse.find? (fun q => normalize_name q.2 == k) with _ | q
    · rw [hr, Option.none_or]
      obtain ⟨room, name⟩ := p
      by_cases hn : normalize_name name = ""
      · have hb : ("" == k) = false := by
          simp [Ne.symm hk]
        simp [List.find?, hn, hb, build_name_to_room_step]
      · simp only [build_name_to_room_step, if_neg hn]
        rw [dictGet_dictInsert]
        by_cases hkk : normalize_name name = k
        · simp [List.find?, hkk]
        · have hb : (normalize_name name == k) = false := by simp [hkk]
          simp [List.find?, hb, hkk]
    · rw [hr]
      rfl

/-- The reverse index maps a non-empty canonical name to the room of the
LAST map entry carrying that canonical name. -/
theorem dictGet_build_name_to_room (m : List (String × String)) (k : String) (hk : k ≠ "") :
    dictGet (build_name_to_room m) k =
      (m.reverse.find? (fun p => normalize_name p.2 == k)).map (fun p => p.1) := by
  have h := dictGet_build_aux m [] k hk
  rw [build_name_to_room, h]
  rcases hq : m.reverse.find? (fun p => normalize_name p.2 == k) with _ | q <;> simp [hq, dictGet]

/-- C10: when two distinct rooms carry names with the same canonical
form, the exact-match tier of the calc_all_nick resolution maps a
record bearing that name to the room of the last such entry in
iteration order of the room-name map, not the first. -/
theorem calc_all_nick_exact_last_entry
    (m1 m2 m3 : List (String × String)) (ra na rb nb u : String)
    (h1 : normalize_name na = normalize_name u) (h2 : normalize_name nb = normalize_name u)
    (h3 : normalize_name u ≠ "") (h4 : ∀ p ∈ m3, normalize_name p.2 ≠ normalize_name u)
    (h5 : rb ≠ ra) :
    resolve_room (build_name_to_room (m1 ++ (ra, na) :: m2 ++ (rb, nb) :: m3)) (normalize_name u)
        = some rb
      ∧ resolve_room (build_name_to_room (m1 ++ (ra, na) :: m2 ++ (rb, nb) :: m3)) (normalize_name u)
        ≠ some ra := by
  have hshape : (m1 ++ (ra, na) :: m2 ++ (rb, nb) :: m3).reverse
      = m3.reverse ++ (rb, nb) :: (m2.reverse ++ (ra, na) :: m1.reverse) := by
    simp [List.reverse_append, List.reverse_cons, List.append_assoc]
  have hget : dictGet (build_name_to_room (m1 ++ (ra, na) :: m2 ++ (rb, nb) :: m3))
      (normalize_name u) = some rb := by
    rw [dictGet_build_name_to_room _ _ h3, hshape,
      find?_first_of _ _ _ _ ?_ ?_]
    · rfl
    · intro x hx
      have := h4 x (List.mem_reverse.mp hx)
      simp [this]
    · simp [h2]
  constructor
  · simp only [resolve_room]
    rw [hget]
  · simp only [resolve_room]
    rw [hget]
    simp [h5]

/-- Witness for C10: rooms 101 and 202 share the name X; room 202, the
later entry, wins the exact tier. -/
theorem calc_all_nick_exact_last_entry_witness :
    resolve_room (build_name_to_room ([] ++ ("101", "X") :: [] ++ ("202", "X") :: []))
        (normalize_name "X") = some "202" := by
  exact (calc_all_nick_exact_last_entry [] [] [] "101" "X" "202" "X" "X" rfl rfl (by decide)
    (by intro p hp; cases hp) (by decide)).1


/-- The retired-room marker test of calc/billing.py (a room label
containing one of the two cross glyphs). -/
def room_retired_str (room : String) : Bool :=
  room.data.contains '✕' || room.data.contains '×'

/-- Models the Python int() parse attempted by the sort key: succeeds
exactly on non-empty all-digit room labels as they occur here. -/
def int_of_room (s : String) : Option Nat :=
  if s ≠ "" ∧ s.data.all (fun c => c.isDigit) then some (digitsToNat s.data) else none

/-- Models `_room_sort_key` of calc/billing.py: retired rooms get first
component 1, others 0 with either the numeric value or the raw string
as the second component. -/
def room_sort_key (rx : RxRow) : Nat × (Nat ⊕ String) :=
  let room := rx.room
  if room_retired_str room then (1, Sum.inr room)
  else
    match int_of_room room with
    | some n => (0, Sum.inl n)
    | none => (0, Sum.inr room)

/-- Python string comparison: lexicographic on code points, a proper
prefix sorting first. -/
def charListLE : List Char → List Char → Bool
  | [], _ => true
  | _ :: _, [] => false
  | a :: s, b :: t =>
    if a.toNat < b.toNat then true
    else if b.toNat < a.toNat then false
    else charListLE s t

/-- Order on second key components. Comparing a number with a string
raises a TypeError in Python; those comparisons never decide a sort
(see hasMixedRoomKinds), and the embedding extends them arbitrarily. -/
def subKeyLE : (Nat ⊕ String) → (Nat ⊕ String) → Bool
  | .inl m, .inl n => m ≤ n
  | .inr s, .inr t => charListLE s.data t.data
  | .inl _, .inr _ => true
  | .inr _, .inl _ => false

/-- Lexicographic order on the sort keys, as Python tuple comparison
performs it. -/
def keyLE (a b : Nat × (Nat ⊕ String)) : Bool :=
  if a.1 < b.1 then true
  else if b.1 < a.1 then false
  else subKeyLE a.2 b.2

/-- Row order induced by the sort keys. -/
def rxLE (a b : RxRow) : Prop := keyLE (room_sort_key a) (room_sort_key b) = true

instance : DecidableRel rxLE := fun _ _ => inferInstanceAs (Decidable (_ = true))

/-- A list of rows on which the Python sort raises a TypeError: it holds
both a non-retired numeric room and a non-retired non-numeric room, so
the sort must compare an integer key with a string key. -/
def hasMixedRoomKinds (l : List RxRow) : Bool :=
  (l.any (fun r => !room_retired_str r.room && (int_of_room r.room).isSome))
    && (l.any (fun r => !room_retired_str r.room && (int_of_room r.room).isNone))

/-- The per-room update of merge_residents_into_rx (calc/billing.py
lines 238-255): fill a blank name from the roster, and set the five
fixed-charge fields from the defaults when the name was just filled or
when the row has a name but rent is absent. -/
def applyResident (fixed : FixedCharges) (name : String) (rx : RxRow) : RxRow :=
  let was_empty := rx.name = ""
  let rx1 := if was_empty ∧ name ≠ "" then { rx with name := name } else rx
  let needs_charges := (was_empty ∧ rx1.name ≠ "") ∨ (rx1.name ≠ "" ∧ rx1.rent = none)
  if needs_charges then
    { rx1 with rent := fixed.rent, management := fixed.management, common := fixed.common,
               water := fixed.water, utility := fixed.utility }
  else rx1

/-- The fresh row appended for a roster room with no ledger row
(calc/billing.py lines 257-267). -/
def newResidentRx (fixed : FixedCharges) (room name : String) : RxRow :=
  { room := room, name := name, rent := fixed.rent, management := fixed.management,
    common := fixed.common, water := fixed.water, utility := fixed.utility }

/-- Update the first row carrying the given room. -/
def updateFirstWithRoom (room : String) (f : RxRow → RxRow) : List RxRow → List RxRow
  | [] => []
  | rx :: rest => if rx.room = room then f rx :: rest else rx :: updateFirstWithRoom room f rest

/-- Update the last row carrying the given room: the Python dict maps a
room to the LAST row object with that room, and mutating it mutates
that position of the merged list. -/
def updateLastWithRoom (l : List RxRow) (room : String) (f : RxRow → RxRow) : List RxRow :=
  (updateFirstWithRoom room f l.reverse).reverse

/-- One step of the roster-map construction (calc/billing.py lines
225-232): skip blank rooms, blank names and retired rooms; later
entries overwrite earlier ones. -/
def resident_step (m : List (String × String)) (res : ResidentMaster) : List (String × String) :=
  if res.room = "" ∨ res.name = "" then m
  else if room_retired_str res.room then m
  else dictInsert m res.room res.name

/-- The roster room-to-name dictionary of merge_residents_into_rx. -/
def resident_map_of (residents : List ResidentMaster) : List (String × String) :=
  residents.foldl resident_step []

/-- One iteration of the merge loop of merge_residents_into_rx
(calc/billing.py lines 237-267). -/
def merge_step (rx_rooms : List String) (fixed : FixedCharges)
    (acc : List RxRow) (p : String × String) : List RxRow :=
  if p.1 ∈ rx_rooms then updateLastWithRoom acc p.1 (applyResident fixed p.2)
  else acc ++ [newResidentRx fixed p.1 p.2]

/-- The merge of merge_residents_into_rx before the final sort: drop the
grand-total pseudo-row, update rows for roster rooms present in the
ledger, append fresh rows for the others. -/
def merge_raw (residents : List ResidentMaster) (rx_rows : List RxRow) (config : Config) :
    List RxRow :=
  let filtered_rows := rx_rows.filter (fun rx => rx.room ≠ "合計")
  let rx_rooms := (filtered_rows.filter (fun rx => rx.room ≠ "")).map (fun rx => rx.room)
  (resident_map_of residents).foldl (merge_step rx_rooms config.fixed_charges) filtered_rows

/-- Models `merge_residents_into_rx` of calc/billing.py. The final sort
raises a TypeError when the comparator meets an integer key and a
string key, which the embedding renders as `none`; otherwise the merged
rows are sorted by the room key order. -/
def merge_residents_into_rx (residents : List ResidentMaster) (rx_rows : List RxRow)
    (config : Config) : Option (List RxRow) :=
  let merged := merge_raw residents rx_rows config
  if hasMixedRoomKinds merged then none
  else some (merged.insertionSort rxLE)

/-- The string order is total. -/
theorem charListLE_total : ∀ s t : List Char, charListLE s t = true ∨ charListLE t s = true := by
  intro s
  induction s with
  | nil => intro t; left; rfl
  | cons a s ih =>
    intro t
    cases t with
    | nil => right; rfl
    | cons b t =>
      rcases Nat.lt_trichotomy a.toNat b.toNat with h | h | h
      · left; simp [charListLE, h]
      · have h1 : ¬ a.toNat < b.toNat := by omega
        have h2 : ¬ b.toNat < a.toNat := by omega
        rcases ih t with hh | hh
        · left; simp [charListLE, h1, h2, hh]
        · right; simp [charListLE, h1, h2, hh]
      · right; simp [charListLE, h]

/-- The string order is transitive. -/
theorem charListLE_trans : ∀ s t u : List Char,
    charListLE s t = true → charListLE t u = true → charListLE s u = true := by
  intro s
  induction s with
  | nil => intro t u h1 h2; rfl
  | cons a s ih =>
    intro t u h1 h2
    cases t with
    | nil => simp [charListLE] at h1
    | cons b t =>
      cases u with
      | nil => simp [charListLE] at h2
      | cons c u =>
        simp only [charListLE] at h1 h2 ⊢
        split_ifs at h1 h2 ⊢ with hab hba hbc hcb hac hca <;>
          first
            | rfl
            | omega
            | (exact ih t u h1 h2)

/-- The second-component order is total. -/
theorem subKeyLE_total : ∀ a b : Nat ⊕ String, subKeyLE a b = true ∨ subKeyLE b a = true := by
  intro a b
  cases a with
  | inl m =>
    cases b with
    | inl n => simpa [subKeyLE] using Nat.le_total m n
    | inr t => left; rfl
  | inr s =>
    cases b with
    | inl n => right; rfl
    | inr t => simpa [subKeyLE] using charListLE_total s.data t.data

/-- The second-component order is transitive. -/
theorem subKeyLE_trans : ∀ a b c : Nat ⊕ String,
    subKeyLE a b = true → subKeyLE b c = true → subKeyLE a c = true := by
  intro a b c h1 h2
  cases a <;> cases b <;> cases c <;> simp_all [subKeyLE]
  · omega
  · exact charListLE_trans _ _ _ h1 h2

/-- The key order is total. -/
theorem keyLE_total : ∀ a b : Nat × (Nat ⊕ String), keyLE a b = true ∨ keyLE b a = true := by
  intro a b
  rcases Nat.lt_trichotomy a.1 b.1 with h | h | h
  · left; simp [keyLE, h]
  · have h1 : ¬ a.1 < b.1 := by omega
    have h2 : ¬ b.1 < a.1 := by omega
    rcases subKeyLE_total a.2 b.2 with hh | hh
    · left; simp [keyLE, h1, h2, hh]
    · right; simp [keyLE, h1, h2, hh]
  · right; simp [keyLE, h]

/-- The key order is transitive. -/
theorem keyLE_trans : ∀ a b c : Nat × (Nat ⊕ String),
    keyLE a b = true → keyLE b c = true → keyLE a c = true := by
  intro a b c h1 h2
  simp only [keyLE] at h1 h2 ⊢
  split_ifs at h1 h2 ⊢ with g1 g2 g3 g4 g5 g6 <;>
    first
      | rfl
      | omega
      | (exact subKeyLE_trans _ _ _ h1 h2)

instance : IsTotal RxRow rxLE :=
  ⟨fun a b => keyLE_total (room_sort_key a) (room_sort_key b)⟩

instance : IsTrans RxRow rxLE :=
  ⟨fun a b c => keyLE_trans (room_sort_key a) (room_sort_key b) (room_sort_key c)⟩

/-- The ordering stated by the spec: retired rooms after all others,
numeric rooms numerically ascending, non-numeric rooms in lexicographic
order (nothing is claimed between a numeric and a non-numeric room). -/
def claimRoomOrder (a b : RxRow) : Prop :=
  (room_retired_str a.room = true → room_retired_str b.room = true)
  ∧ (room_retired_str a.room = false → room_retired_str b.room = false →
      (∀ m n : Nat, int_of_room a.room = some m → int_of_room b.room = some n → m ≤ n)
      ∧ (int_of_room a.room = none → int_of_room b.room = none →
          charListLE a.room.data b.room.data = true))

/-- The code order implies the claimed order. -/
theorem rxLE_imp_claimRoomOrder (a b : RxRow) (h : rxLE a b) : claimRoomOrder a b := by
  unfold rxLE at h
  simp only [room_sort_key] at h
  cases hA : room_retired_str a.room with
  | true =>
    rw [hA, if_pos rfl] at h
    cases hB : room_retired_str b.room with
    | true => exact ⟨fun _ => hB, fun hfa => by simp [hA] at hfa⟩
    | false =>
      exfalso
      rw [hB, if_neg Bool.false_ne_true] at h
      rcases hib : int_of_room b.room with _ | n <;> rw [hib] at h <;> simp [keyLE] at h
  | false =>
    rw [hA, if_neg Bool.false_ne_true] at h
    refine ⟨fun hh => by simp [hA] at hh, fun _ hB => ?_⟩
    rw [hB, if_neg Bool.false_ne_true] at h
    constructor
    · intro m n hia hib
      rw [hia, hib] at h
      simpa [keyLE, subKeyLE] using h
    · intro hia hib
      rw [hia, hib] at h
      simpa [keyLE, subKeyLE] using h

/-- C6 (amended): when the merged rows do not mix numeric and
non-numeric non-retired rooms, the merge returns a list that is a
permutation of the merged rows, sorted with numeric rooms numerically
ascending, non-numeric rooms lexicographic, and retired rooms after all
others. (On mixed inputs the sort comparator raises a type error and no
list is returned; see the counterexample.) -/
theorem merge_sorted_or_type_error (residents : List ResidentMaster) (rx_rows : List RxRow)
    (config : Config)
    (h : hasMixedRoomKinds (merge_raw residents rx_rows config) = false) :
    ∃ out, merge_residents_into_rx residents rx_rows config = some out
      ∧ out.Pairwise claimRoomOrder
      ∧ out.Perm (merge_raw residents rx_rows config) := by
  refine ⟨(merge_raw residents rx_rows config).insertionSort rxLE, ?_, ?_, ?_⟩
  · simp [merge_residents_into_rx, h]
  · exact (List.sorted_insertionSort rxLE (merge_raw residents rx_rows config)).imp
      (fun hab => rxLE_imp_claimRoomOrder _ _ hab)
  · exact List.perm_insertionSort rxLE _

/-- C6 (counterexample): on a ledger mixing the numeric room 608 with
the alphanumeric room 2A the sort comparator compares an integer key
with a string key, which raises a TypeError in Python; no sorted list
is returned, contradicting the claim for mixed inputs. -/
theorem merge_mixed_rooms_type_error :
    merge_residents_into_rx [] [{ room := "608", name := "a" }, { room := "2A", name := "b" }] {}
      = none := by decide

/-- Concrete ledger rows for the C6 witness. -/
def rxsW : List RxRow :=
  [{ room := "3", name := "a" }, { room := "1", name := "b" }, { room := "✕2", name := "c" }]

/-- Witness for C6: three rooms sort to 1, 3 and then the retired one. -/
theorem merge_sorted_witness :
    hasMixedRoomKinds (merge_raw [] rxsW {}) = false
      ∧ ∃ out, merge_residents_into_rx [] rxsW {} = some out
          ∧ out.Pairwise claimRoomOrder
          ∧ out.Perm (merge_raw [] rxsW {}) :=
  ⟨by decide, merge_sorted_or_type_error [] rxsW {} (by decide)⟩



/-- A roster entry processed by the merge: non-blank room, non-blank
name, not retired. -/
def activeResident (res : ResidentMaster) : Bool :=
  !(res.room == "") && !(res.name == "") && !room_retired_str res.room

/-- Active entries are inserted into the roster map. -/
theorem resident_step_active (m : List (String × String)) (res : ResidentMaster)
    (h : activeResident res = true) :
    resident_step m res = dictInsert m res.room res.name := by
  simp only [activeResident, Bool.and_eq_true, Bool.not_eq_true', beq_eq_false_iff_ne, ne_eq] at h
  simp [resident_step, h.1.1, h.1.2, h.2]

/-- Inactive entries are skipped. -/
theorem resident_step_inactive (m : List (String × String)) (res : ResidentMaster)
    (h : activeResident res = false) :
    resident_step m res = m := by
  simp only [activeResident, Bool.and_eq_false_iff, Bool.not_eq_false', beq_iff_eq,
    Bool.not_eq_false] at h
  rcases h with (h | h) | h
  · simp [resident_step, h]
  · simp [resident_step, h]
  · simp [resident_step, h]

/-- Inserting a fresh key appends. -/
theorem dictInsert_append_of_not_mem {α : Type} (d : List (String × α)) (k : String) (v : α)
    (h : k ∉ d.map Prod.fst) :
    dictInsert d k v = d ++ [(k, v)] := by
  induction d with
  | nil => rfl
  | cons p rest ih =>
    obtain ⟨k1, v1⟩ := p
    simp only [List.map_cons, List.mem_cons, not_or] at h
    simp only [dictInsert, if_neg (fun hh : k1 = k => h.1 hh.symm), List.cons_append]
    rw [ih h.2]

/-- With pairwise-distinct active rooms the roster map lists exactly the
active entries in order. -/
theorem resident_fold_eq (l : List ResidentMaster) (acc : List (String × String))
    (h : ((acc.map Prod.fst) ++ ((l.filter activeResident).map (fun res => res.room))).Nodup) :
    l.foldl resident_step acc
      = acc ++ (l.filter activeResident).map (fun res => (res.room, res.name)) := by
  induction l generalizing acc with
  | nil => simp
  | cons res rest ih =>
    rw [List.foldl_cons]
    cases hact : activeResident res with
    | false =>
      rw [resident_step_inactive _ _ hact]
      have h' := h
      rw [List.filter_cons, hact] at h'
      simp only [Bool.false_eq_true, if_false] at h'
      rw [ih acc h', List.filter_cons, hact]
      simp
    | true =>
      rw [resident_step_active _ _ hact]
      have h' := h
      rw [List.filter_cons, hact, if_pos rfl] at h'
      simp only [List.map_cons] at h'
      have hnotin : res.room ∉ acc.map Prod.fst := by
        have hd := List.nodup_append.mp h'
        intro hmem
        exact hd.2.2 hmem (by simp)
      rw [dictInsert_append_of_not_mem acc res.room res.name hnotin]
      have h'' : (((acc ++ [(res.room, res.name)]).map Prod.fst)
          ++ ((rest.filter activeResident).map (fun r => r.room))).Nodup := by
        simpa [List.append_assoc] using h'
      rw [ih (acc ++ [(res.room, res.name)]) h'', List.filter_cons, hact, if_pos rfl]
      simp

/-- The roster map under distinct active rooms. -/
theorem resident_map_of_eq (residents : List ResidentMaster)
    (h : ((residents.filter activeResident).map (fun res => res.room)).Nodup) :
    resident_map_of residents
      = (residents.filter activeResident).map (fun res => (res.room, res.name)) := by
  have := resident_fold_eq residents [] (by simpa using h)
  simpa [resident_map_of] using this



/-- The per-room update never changes the room. -/
theorem applyResident_room (fixed : FixedCharges) (name : String) (rx : RxRow) :
    (applyResident fixed name rx).room = rx.room := by
  simp only [applyResident]
  split_ifs <;> rfl

/-- A guarded map is the identity when no row matches the guard. -/
theorem map_ite_room_id (l : List RxRow) (k : String) (f : RxRow → RxRow)
    (h : ∀ rx ∈ l, rx.room ≠ k) :
    l.map (fun rx => if rx.room = k then f rx else rx) = l := by
  induction l with
  | nil => rfl
  | cons rx rest ih =>
    simp only [List.map_cons, if_neg (h rx (by simp)), List.cons_inj_right]
    exact ih (fun r hr => h r (by simp [hr]))

/-- With at most one matching row, updating the first match equals a
guarded map. -/
theorem updateFirstWithRoom_eq_map (l : List RxRow) (k : String) (f : RxRow → RxRow)
    (h : (l.filter (fun rx => rx.room = k)).length ≤ 1) :
    updateFirstWithRoom k f l = l.map (fun rx => if rx.room = k then f rx else rx) := by
  induction l with
  | nil => rfl
  | cons rx rest ih =>
    by_cases hr : rx.room = k
    · have hrest : (rest.filter (fun rx => rx.room = k)).length = 0 := by
        rw [List.filter_cons, if_pos (by simpa using hr)] at h
        simp only [List.length_cons] at h
        omega
      have hnone : ∀ r ∈ rest, r.room ≠ k := by
        intro r hmem hk
        have : r ∈ rest.filter (fun rx => rx.room = k) := by
          simp [List.mem_filter, hmem, hk]
        rw [List.length_eq_zero.mp hrest] at this
        cases this
      simp only [updateFirstWithRoom, if_pos hr, List.map_cons, if_pos hr]
      rw [map_ite_room_id rest k f hnone]
    · rw [List.filter_cons, if_neg (by simpa using hr)] at h
      simp only [updateFirstWithRoom, if_neg hr, List.map_cons, if_neg hr, List.cons_inj_right]
      exact ih h

/-- With at most one matching row, updating the last match equals a
guarded map. -/
theorem updateLastWithRoom_eq_map (l : List RxRow) (k : String) (f : RxRow → RxRow)
    (h : (l.filter (fun rx => rx.room = k)).length ≤ 1) :
    updateLastWithRoom l k f = l.map (fun rx => if rx.room = k then f rx else rx) := by
  unfold updateLastWithRoom
  rw [updateFirstWithRoom_eq_map]
  · rw [← List.map_reverse, List.reverse_reverse]
  · rw [List.filter_reverse, List.length_reverse]
    exact h

/-- Updating skips a prefix without matches. -/
theorem updateFirstWithRoom_append_left (l1 l2 : List RxRow) (k : String) (f : RxRow → RxRow)
    (h : ∀ rx ∈ l1, rx.room ≠ k) :
    updateFirstWithRoom k f (l1 ++ l2) = l1 ++ updateFirstWithRoom k f l2 := by
  induction l1 with
  | nil => rfl
  | cons rx rest ih =>
    simp only [List.cons_append, updateFirstWithRoom, if_neg (h rx (by simp)),
      List.cons_inj_right]
    exact ih (fun r hr => h r (by simp [hr]))

/-- Updating the last match ignores a suffix without matches. -/
theorem updateLastWithRoom_append_right (base extra : List RxRow) (k : String) (f : RxRow → RxRow)
    (h : ∀ rx ∈ extra, rx.room ≠ k) :
    updateLastWithRoom (base ++ extra) k f = updateLastWithRoom base k f ++ extra := by
  unfold updateLastWithRoom
  rw [List.reverse_append, updateFirstWithRoom_append_left _ _ _ _ (by
    intro rx hrx
    exact h rx (List.mem_reverse.mp hrx))]
  rw [List.reverse_append, List.reverse_reverse]



/-- With pairwise-distinct non-empty rooms, at most one row carries any
given non-empty room. -/
theorem filter_room_count_le_one (base : List RxRow) (R : List String) (k : String)
    (hbase : R = (base.filter (fun rx => rx.room ≠ "")).map (fun rx => rx.room))
    (hRnodup : R.Nodup) (hk : k ≠ "") :
    (base.filter (fun rx => rx.room = k)).length ≤ 1 := by
  subst hbase
  induction base with
  | nil => simp
  | cons rx rest ih =>
    by_cases hr : rx.room = k
    · have hne : rx.room ≠ "" := by rw [hr]; exact hk
      rw [List.filter_cons, if_pos (by simpa using hne)] at hRnodup
      simp only [List.map_cons, List.nodup_cons] at hRnodup
      have hnok : ∀ r ∈ rest, r.room ≠ k := by
        intro r hrm hh
        apply hRnodup.1
        rw [hr]
        exact List.mem_map.mpr ⟨r, List.mem_filter.mpr ⟨hrm, by simpa using hh ▸ hk⟩, hh⟩
      have : rest.filter (fun rx => rx.room = k) = [] := by
        rw [List.filter_eq_nil_iff]
        intro r hrm
        simpa using hnok r hrm
      rw [List.filter_cons, if_pos (by simpa using hr), this]
      simp
    · rw [List.filter_cons, if_neg (by simpa using hr)]
      by_cases hne : rx.room = ""
      · rw [List.filter_cons, if_neg (by simpa using hne)] at hRnodup
        exact ih hRnodup
      · rw [List.filter_cons, if_pos (by simpa using hne)] at hRnodup
        simp only [List.map_cons, List.nodup_cons] at hRnodup
        exact ih hRnodup.2

/-- A room-preserving map leaves the room listing unchanged. -/
theorem filter_map_room_eq (base : List RxRow) (g : RxRow → RxRow)
    (h : ∀ rx ∈ base, (g rx).room = rx.room) :
    ((base.map g).filter (fun rx => rx.room ≠ "")).map (fun rx => rx.room)
      = (base.filter (fun rx => rx.room ≠ "")).map (fun rx => rx.room) := by
  induction base with
  | nil => rfl
  | cons rx rest ih =>
    have hg := h rx (by simp)
    have ihr := ih (fun r hrm => h r (by simp [hrm]))
    simp only [List.map_cons, List.filter_cons, hg]
    by_cases hr : rx.room = ""
    · simp only [hr]
      simpa [hr] using ihr
    · rw [if_pos (by simpa using hr), if_pos (by simpa using hr)]
      simp only [List.map_cons, hg]
      rw [ihr]



/-- Invariant of the merge loop for an arbitrary split base-and-appended
state: every base row is updated by its unique roster entry (if any)
and every roster room absent from the ledger appends a fresh row, in
roster order. -/
theorem merge_fold (entries : List (String × String)) (base extra : List RxRow) (R : List String)
    (fixed : FixedCharges)
    (hE : (entries.map Prod.fst).Nodup)
    (hEne : ∀ p ∈ entries, p.1 ≠ "")
    (hbase : R = (base.filter (fun rx => rx.room ≠ "")).map (fun rx => rx.room))
    (hRnodup : R.Nodup)
    (hextra : ∀ rx ∈ extra, rx.room ∉ R) :
    entries.foldl (merge_step R fixed) (base ++ extra)
      = base.map (fun rx =>
          match entries.find? (fun p => p.1 == rx.room) with
          | some p => applyResident fixed p.2 rx
          | none => rx)
        ++ extra
        ++ (entries.filter (fun p => !(R.contains p.1))).map
            (fun p => newResidentRx fixed p.1 p.2) := by
  induction entries generalizing base extra with
  | nil => simp [List.find?]
  | cons e rest ih =>
    obtain ⟨k, v⟩ := e
    have hk_ne : k ≠ "" := hEne (k, v) (by simp)
    have hE_tail : (rest.map Prod.fst).Nodup := by
      simpa using (List.nodup_cons.mp (by simpa using hE)).2
    have hk_notin_rest : k ∉ rest.map Prod.fst :=
      (List.nodup_cons.mp (by simpa using hE)).1
    have hrest_none : ∀ room : String, room = k →
        rest.find? (fun p => p.1 == room) = none := by
      intro room hroom
      subst hroom
      rw [List.find?_eq_none]
      intro p hp
      simp only [beq_iff_eq]
      intro hh
      exact hk_notin_rest (List.mem_map.mpr ⟨p, hp, hh⟩)
    have hEne_tail : ∀ p ∈ rest, p.1 ≠ "" := fun p hp => hEne p (by simp [hp])
    rw [List.foldl_cons]
    by_cases hkR : k ∈ R
    · have hstep : merge_step R fixed (base ++ extra) (k, v)
          = updateLastWithRoom (base ++ extra) k (applyResident fixed v) := by
        simp [merge_step, hkR]
      have hextra_ne : ∀ rx ∈ extra, rx.room ≠ k := fun rx hrx hh => hextra rx hrx (hh ▸ hkR)
      rw [hstep, updateLastWithRoom_append_right base extra k _ hextra_ne,
        updateLastWithRoom_eq_map base k _
          (filter_room_count_le_one base R k hbase hRnodup hk_ne)]
      have hbase1 : R = (((base.map (fun rx => if rx.room = k then applyResident fixed v rx
          else rx)).filter (fun rx => rx.room ≠ "")).map (fun rx => rx.room)) := by
        rw [filter_map_room_eq base _ (by
          intro rx _
          by_cases hr : rx.room = k
          · simp [hr, applyResident_room]
          · simp [hr])]
        exact hbase
      rw [ih (base.map (fun rx => if rx.room = k then applyResident fixed v rx else rx)) extra
        hE_tail hEne_tail hbase1 hextra]
      have hfilter : ((k, v) :: rest).filter (fun p => !(R.contains p.1))
          = rest.filter (fun p => !(R.contains p.1)) := by
        simp [List.filter_cons, hkR]
      rw [hfilter, List.map_map]
      congr 1
      congr 1
      apply List.map_congr_left
      intro rx hrx
      by_cases hr : rx.room = k
      · have h1 : rest.find? (fun p => p.1 == (applyResident fixed v rx).room) = none :=
          hrest_none _ (by rw [applyResident_room]; exact hr)
        have h2 : ((k, v) :: rest).find? (fun p => p.1 == rx.room) = some (k, v) :=
          List.find?_cons_of_pos _ (by simp [hr])
        simp only [Function.comp_apply, if_pos hr, h1, h2]
      · have h2 : ((k, v) :: rest).find? (fun p => p.1 == rx.room)
            = rest.find? (fun p => p.1 == rx.room) :=
          List.find?_cons_of_neg _ (by simp only [beq_iff_eq]; exact fun hh => hr hh.symm)
        simp only [Function.comp_apply, if_neg hr, h2]
    · have hstep : merge_step R fixed (base ++ extra) (k, v)
          = (base ++ extra) ++ [newResidentRx fixed k v] := by
        simp [merge_step, hkR]
      have hextra' : ∀ rx ∈ extra ++ [newResidentRx fixed k v], rx.room ∉ R := by
        intro rx hrx
        rcases List.mem_append.mp hrx with hmem | hmem
        · exact hextra rx hmem
        · simp only [List.mem_singleton] at hmem
          subst hmem
          simpa [newResidentRx] using hkR
      rw [hstep, List.append_assoc,
        ih base (extra ++ [newResidentRx fixed k v]) hE_tail hEne_tail hbase hextra']
      have hnorow : ∀ rx ∈ base, rx.room ≠ k := by
        intro rx hrx hh
        apply hkR
        rw [hbase]
        exact List.mem_map.mpr ⟨rx, List.mem_filter.mpr ⟨hrx, by simp [hh, hk_ne]⟩, hh⟩
      have hfilter : ((k, v) :: rest).filter (fun p => !(R.contains p.1))
          = (k, v) :: rest.filter (fun p => !(R.contains p.1)) := by
        simp [List.filter_cons, hkR]
      rw [hfilter]
      have hmapcongr : base.map (fun rx =>
            match ((k, v) :: rest).find? (fun p => p.1 == rx.room) with
            | some p => applyResident fixed p.2 rx
            | none => rx)
          = base.map (fun rx =>
            match rest.find? (fun p => p.1 == rx.room) with
            | some p => applyResident fixed p.2 rx
            | none => rx) := by
        apply List.map_congr_left
        intro rx hrx
        rw [List.find?_cons_of_neg _
          (by simp only [beq_iff_eq]; exact fun hh => hnorow rx hrx hh.symm)]
      rw [hmapcongr]
      simp [List.append_assoc]



/-- C5 (amended): with pairwise-distinct active roster rooms and
pairwise-distinct non-empty ledger rooms, the merge drops the
grand-total pseudo-row, never inserts retired or blank-named roster
entries, updates each ledger row by its roster entry (filling a blank
name, and setting all five fixed-charge fields from the defaults
exactly when the name was blank and got filled or when the row has a
name but an absent rent field), appends a fresh default-charged row for
each active roster room with no ledger row, and the returned list is a
permutation of these rows. -/
theorem merge_roster_spec (residents : List ResidentMaster) (rx_rows : List RxRow)
    (config : Config)
    (hR : ((residents.filter activeResident).map (fun res => res.room)).Nodup)
    (hX : (((rx_rows.filter (fun rx => rx.room ≠ "合計")).filter
        (fun rx => rx.room ≠ "")).map (fun rx => rx.room)).Nodup) :
    merge_raw residents rx_rows config
      = (rx_rows.filter (fun rx => rx.room ≠ "合計")).map (fun rx =>
          match (residents.filter activeResident).find? (fun res => res.room == rx.room) with
          | some res => applyResident config.fixed_charges res.name rx
          | none => rx)
        ++ ((residents.filter activeResident).filter (fun res =>
              !((((rx_rows.filter (fun rx => rx.room ≠ "合計")).filter
                  (fun rx => rx.room ≠ "")).map (fun rx => rx.room)).contains res.room))).map
            (fun res => newResidentRx config.fixed_charges res.room res.name)
    ∧ ∀ out, merge_residents_into_rx residents rx_rows config = some out →
        out.Perm (merge_raw residents rx_rows config) := by
  constructor
  · set filtered := rx_rows.filter (fun rx => rx.room ≠ "合計") with hfiltered
    set R := (filtered.filter (fun rx => rx.room ≠ "")).map (fun rx => rx.room) with hRdef
    have hmap := resident_map_of_eq residents hR
    have hEne : ∀ p ∈ resident_map_of residents, p.1 ≠ "" := by
      rw [hmap]
      intro p hp
      obtain ⟨res, hres, rfl⟩ := List.mem_map.mp hp
      have := (List.mem_filter.mp hres).2
      simp only [activeResident, Bool.and_eq_true, Bool.not_eq_true', beq_eq_false_iff_ne,
        ne_eq] at this
      exact this.1.1
    have hE : ((resident_map_of residents).map Prod.fst).Nodup := by
      rw [hmap, List.map_map]
      simpa using hR
    have hfold := merge_fold (resident_map_of residents) filtered [] R config.fixed_charges
      hE hEne (by rw [hRdef]) hX (by intro rx hrx; cases hrx)
    simp only [List.append_nil] at hfold
    have hmerge : merge_raw residents rx_rows config
        = (resident_map_of residents).foldl (merge_step R config.fixed_charges) filtered := rfl
    rw [hmerge, hfold, hmap]
    congr 1
    · apply List.map_congr_left
      intro rx hrx
      rw [List.find?_map]
      rcases hfind : (residents.filter activeResident).find? ((fun p => p.1 == rx.room)
          ∘ (fun res => (res.room, res.name))) with _ | res
      · rw [hfind]
        have h2 : (residents.filter activeResident).find? (fun res => res.room == rx.room)
            = none := by
          simpa [Function.comp] using hfind
        rw [h2]
        rfl
      · rw [hfind]
        have h2 : (residents.filter activeResident).find? (fun res => res.room == rx.room)
            = some res := by
          simpa [Function.comp] using hfind
        rw [h2]
        rfl
    · rw [List.filter_map, List.map_map]
      apply List.map_congr_left
      intro res _
      rfl
  · intro out hout
    by_cases hm : hasMixedRoomKinds (merge_raw residents rx_rows config) = true
    · simp [merge_residents_into_rx, hm] at hout
    · simp only [merge_residents_into_rx, hm, Bool.false_eq_true, if_false,
        Option.some.injEq] at hout
      rw [← hout]
      exact List.perm_insertionSort rxLE _



/-- Concrete ledger row for the C5 counterexample: blank name, rent and
water already configured. -/
def rxCex : RxRow := { room := "201", name := "", rent := some 100, water := some 200 }

/-- Concrete default fixed charges for the C5 counterexample. -/
def cfgCex : Config := { fixed_charges := { rent := some 50000, water := some 2000 } }

/-- C5 (counterexample): the row has fixed-charge fields configured
(rent 100, water 200), so by the claim the defaults must not be
applied; but because the blank name gets filled from the roster, the
code overwrites all five fixed-charge fields with the defaults (rent
50000, water 2000). -/
theorem merge_overwrites_configured_charges :
    (merge_raw [⟨"201", "花子"⟩] [rxCex] cfgCex).map (fun rx => (rx.name, rx.rent, rx.water))
      = [("花子", some 50000, some 2000)]
    ∧ rxCex.water = some 200 := by decide

/-- Witness for C5: a roster room absent from the ledger is appended as
a fresh row while the unrelated ledger row is untouched. -/
theorem merge_roster_spec_witness :
    merge_raw [⟨"301", "A"⟩] [{ room := "302", name := "B" }] {}
      = [{ room := "302", name := "B" }, { room := "301", name := "A" }] := by
  have h := (merge_roster_spec [⟨"301", "A"⟩] [{ room := "302", name := "B" }] {}
    (by decide) (by decide)).1
  rw [h]
  decide

end Invoice
